import Mathlib

/-!
Shallow embedding of `src/vector_store.py` (class `VectorStoreManager`) from
the modalknowledge repository, together with theorems settling the frozen
claims about it.

Python dictionaries are modelled as association lists (insertion order is
dict iteration order in CPython ≥ 3.7); Python strings as Lean `String`;
embedding vectors as `List Int` (their numeric content is irrelevant to every
claim, only identity matters); the external embedding service, the SHA-256
digest, the seeded NumPy generator and the FAISS nearest-neighbour search are
oracles packaged in an `Env`, universally quantified in the theorems.
Python exceptions are modelled with `Except Unit`.
-/

/-- A Python value as it occurs in chunk metadata and filter specifications:
a string or a list of strings (the shapes the repository produces). -/
inductive PyVal where
  | str (s : String)
  | list (l : List String)
deriving DecidableEq, Repr

/-- One stored chunk: `text` plus string-keyed `metadata`
(mirrors the dicts written to `chunks.jsonl`). -/
structure Chunk where
  text : String
  metadata : List (String × PyVal)
deriving DecidableEq, Repr

/-- Python `d.get(k)` on an association-list dictionary. -/
def alGet {κ α : Type} [DecidableEq κ] (m : List (κ × α)) (k : κ) : Option α :=
  (m.find? (fun p => decide (p.1 = k))).map (fun p => p.2)

/-- Python `d[k] = v` on an association-list dictionary: replace in place when the
key exists (CPython keeps the original position), append otherwise. -/
def alSet {κ α : Type} [DecidableEq κ] (m : List (κ × α)) (k : κ) (v : α) :
    List (κ × α) :=
  if (m.find? (fun p => decide (p.1 = k))).isSome then
    m.map (fun p => if p.1 = k then (k, v) else p)
  else
    m ++ [(k, v)]

/-- Python truthiness of an optional metadata value (`if not exp`):
`None`, the empty string and the empty list are falsy. -/
def pyTruthy : Option PyVal → Bool
  | none => false
  | some (.str s) => !(s = "")
  | some (.list l) => !(l = [])

/-- Python `a <= b` on two dynamic values: defined for two strings
(lexicographic), a `TypeError` otherwise. -/
def pyLe : PyVal → PyVal → Except Unit Bool
  | .str a, .str b => .ok (decide (a ≤ b))
  | _, _ => .error ()

/-- Python `a < b` on two dynamic values. -/
def pyLt : PyVal → PyVal → Except Unit Bool
  | .str a, .str b => .ok (decide (a < b))
  | _, _ => .error ()

/-- Python `a > b` on two dynamic values. -/
def pyGt : PyVal → PyVal → Except Unit Bool
  | .str a, .str b => .ok (decide (b < a))
  | _, _ => .error ()

/-- Python `sub in s` for Python strings: substring test. -/
def pyInStr (sub s : String) : Bool :=
  decide (sub.data <:+: s.data)

/-- Python `needle in hay` where `hay` came out of metadata: membership when `hay`
is a list, substring when it is a string. -/
def pyInVal (needle : String) (hay : PyVal) : Bool :=
  match hay with
  | .list l => decide (needle ∈ l)
  | .str s => pyInStr needle s

/-- One iteration of the `for key, value in filters.items()` loop of
`_match_filters`, dispatching on the key: `.ok true` means the condition
passed (the loop continues), `.ok false` models `return False` (the chunk is
excluded), `.error ()` models a raised exception (a `TypeError` from an
order comparison on non-strings, or the `AttributeError` from
`value.lower()` when a `keyword` value is not a string). -/
def filterStep (meta : List (String × PyVal)) (text : String)
    (key : String) (value : PyVal) : Except Unit Bool :=
  if key = "expiration_date_gt" then
    match alGet meta ("expiration_date") with
    | none => .ok false
    | some e =>
      if pyTruthy (some e) then
        match pyLe e value with
        | .error u => .error u
        | .ok true => .ok false
        | .ok false => .ok true
      else .ok false
  else if key = "expiration_date_start" then
    match alGet meta ("expiration_date") with
    | none => .ok true
    | some e =>
      if pyTruthy (some e) then
        match pyLt e value with
        | .error u => .error u
        | .ok true => .ok false
        | .ok false => .ok true
      else .ok true
  else if key = "expiration_date_end" then
    match alGet meta ("expiration_date") with
    | none => .ok true
    | some e =>
      if pyTruthy (some e) then
        match pyGt e value with
        | .error u => .error u
        | .ok true => .ok false
        | .ok false => .ok true
      else .ok true
  else if key = "author" then
    match alGet meta ("author") with
    | some a => if a = value then .ok true else .ok false
    | none => .ok false
  else if key = "tag" then
    let tags := (alGet meta ("ai_tags")).getD (.list [])
    match value with
    | .str v => if pyInVal v tags then .ok true else .ok false
    | .list l => if l.any (fun v => pyInVal v tags) then .ok true else .ok false
  else if key = "keyword" then
    match value with
    | .str v => if pyInStr v.toLower text.toLower then .ok true else .ok false
    | .list _ => .error ()
  else
    match alGet meta key with
    | some v => if v = value then .ok true else .ok false
    | none => .ok false

/-- The filter loop: run `filterStep` per dict item in dict order, stopping
at the first exclusion or exception; all conditions passing yields `True`. -/
def matchLoop (meta : List (String × PyVal)) (text : String) :
    List (String × PyVal) → Except Unit Bool
  | [] => .ok true
  | (key, value) :: rest =>
    match filterStep meta text key value with
    | .error u => .error u
    | .ok false => .ok false
    | .ok true => matchLoop meta text rest

/-- Model of `VectorStoreManager._match_filters`: `True` when the chunk satisfies all
filter conditions; an empty filter dict matches everything. -/
def matchFilters (chunk : Chunk) (filters : List (String × PyVal)) :
    Except Unit Bool :=
  if filters = [] then .ok true
  else matchLoop chunk.metadata chunk.text filters

/-- An embedding vector (numeric content is opaque to every claim). -/
abbrev Vec := List Int

/-- The FAISS `IndexIDMap` over an `IndexFlatL2`: a dimension and the live
(id, vector) entries in insertion order. -/
structure FaissIndex where
  dim : Nat
  entries : List (Int × Vec)
deriving DecidableEq

/-- The external oracles the manager calls: the OpenAI embedding service
(`none` models a raised exception), the SHA-256 digest, the seeded NumPy
generator (`rngRandom seed n`), and the FAISS nearest-neighbour search
(returning (distance, id) rows, id `-1` marking padding). -/
structure Env where
  embedService : String → Option Vec
  sha256 : String → List Nat
  rngRandom : Nat → Nat → Vec
  ann : FaissIndex → Vec → Nat → List (Int × Int)

/-- Python `int.from_bytes(bytes, "big")`. -/
def bytesBE (l : List Nat) : Nat :=
  l.foldl (fun a b => a * 256 + b) 0

/-- Model of `VectorStoreManager._embed`: the service's vector, or on failure the
deterministic fallback seeded by the first 8 bytes of the SHA-256 digest of
the text. -/
def pyEmbed (env : Env) (text : String) : Vec :=
  match env.embedService text with
  | some v => v
  | none => env.rngRandom (bytesBE ((env.sha256 text).take 8)) 1536

/-- One persisted artifact: absent, deserializable, truncated (deserializing
raises `EOFError`), or corrupt (deserializing raises some other exception,
e.g. `pickle.UnpicklingError` or a faiss `RuntimeError`). -/
inductive Artifact (α : Type) where
  | missing
  | ok (payload : α)
  | truncated
  | corrupt
deriving DecidableEq

/-- Python `path.exists()` for an artifact. -/
def Artifact.fileExists {α : Type} : Artifact α → Bool
  | .missing => false
  | _ => true

/-- The knowledge-base directory on disk: the two index artifacts and the
per-document directories, each with an optional `chunks.jsonl`
(`none` means the directory has no chunks file). -/
structure Disk where
  indexArtifact : Artifact FaissIndex
  idMapArtifact : Artifact (List (Int × String))
  docDirs : List (String × Option (List Chunk))
deriving DecidableEq

/-- In-memory state of a `VectorStoreManager` plus the disk it sits on. -/
structure Store where
  index : Option FaissIndex
  id_map : List (Int × String)
  documents : List (String × List Chunk)
  disk : Disk
deriving DecidableEq

/-- Exceptions distinguished by `_load`. -/
inductive PyExc where
  | eof
  | other
deriving DecidableEq

/-- Deserialize one artifact (`faiss.read_index` / `pickle.load`).
The `.missing` case is unreachable behind the `exists()` guard. -/
def readArtifact {α : Type} : Artifact α → Except PyExc α
  | .ok a => .ok a
  | .truncated => .error .eof
  | .corrupt => .error .other
  | .missing => .error .other

/-- The document-cache scan of `_load`: every directory with a chunks file
contributes its chunk list. -/
def loadDocs (d : Disk) : List (String × List Chunk) :=
  d.docDirs.filterMap (fun p => p.2.map (fun cs => (p.1, cs)))

/-- Model of `VectorStoreManager._load` (run by `__init__`): read index and id map
when both artifact files exist, catching only `EOFError` (which resets both
and unlinks the files); any other deserialization exception propagates,
modelled as `.error ()`.  Then scan the document directories into the cache. -/
def pyLoad (d : Disk) : Except Unit Store :=
  if d.indexArtifact.fileExists && d.idMapArtifact.fileExists then
    match readArtifact d.indexArtifact with
    | .ok idx =>
      match readArtifact d.idMapArtifact with
      | .ok m => .ok { index := some idx, id_map := m, documents := loadDocs d, disk := d }
      | .error .eof =>
        let d2 : Disk := { d with indexArtifact := .missing, idMapArtifact := .missing }
        .ok { index := none, id_map := [], documents := loadDocs d2, disk := d2 }
      | .error .other => .error ()
    | .error .eof =>
      let d2 : Disk := { d with indexArtifact := .missing, idMapArtifact := .missing }
      .ok { index := none, id_map := [], documents := loadDocs d2, disk := d2 }
    | .error .other => .error ()
  else
    .ok { index := none, id_map := [], documents := loadDocs d, disk := d }

/-- Model of `VectorStoreManager._save_index`: write both artifacts, but only when an
index exists. -/
def saveIndex (s : Store) : Store :=
  match s.index with
  | some idx =>
    { s with disk := { s.disk with indexArtifact := .ok idx,
                                   idMapArtifact := .ok s.id_map } }
  | none => s

/-- Python `max(keys)` over a non-empty key list (the `[]` case is unreachable
behind the `if self.id_map` guard). -/
def maxKey : List Int → Int
  | [] => 0
  | x :: xs => xs.foldl max x

/-- Python `start_id = max(self.id_map.keys()) + 1 if self.id_map else 0`. -/
def startIdOf (m : List (Int × String)) : Int :=
  match m with
  | [] => 0
  | _ => maxKey (m.map Prod.fst) + 1

/-- Python `mapping.startswith(prefix_string)`. -/
def pyStartsWith (s pre : String) : Bool :=
  pre.data.isPrefixOf s.data

/-- Model of `VectorStoreManager.add_document`.  The fresh `doc_id`
(`str(uuid.uuid4())` in the source) is a parameter.  The document directory,
the copied blobs (not modelled) and `chunks.jsonl` are written first; an
empty embedding batch then returns before touching index, id map or cache. -/
def add_document (env : Env) (s : Store) (doc_id : String)
    (chunks : List Chunk) : Store :=
  let disk1 : Disk := { s.disk with docDirs := alSet s.disk.docDirs doc_id (some chunks) }
  let s1 : Store := { s with disk := disk1 }
  let vectors := chunks.map (fun c => pyEmbed env c.text)
  match vectors with
  | [] => s1
  | v0 :: _ =>
    let idx0 : FaissIndex :=
      match s1.index with
      | some idx => idx
      | none => { dim := v0.length, entries := [] }
    let start_id := startIdOf s1.id_map
    let ids : List Int := (List.range vectors.length).map (fun (i : Nat) => start_id + (i : Int))
    let idx1 : FaissIndex := { idx0 with entries := idx0.entries ++ ids.zip vectors }
    let newEntries : List (Int × String) :=
      (List.range vectors.length).map
        (fun (i : Nat) => (start_id + (i : Int), doc_id ++ "/" ++ toString i))
    let id_map1 := newEntries.foldl (fun m e => alSet m e.1 e.2) s1.id_map
    let s2 : Store := { s1 with index := some idx1, id_map := id_map1 }
    let s3 := saveIndex s2
    { s3 with documents := alSet s3.documents doc_id chunks }

/-- The found-document path of `VectorStoreManager.delete_document`:
remove matching index entries and map entries (only when there are ids to
remove and an index exists), persist, delete the directory (`rmtree`) and
drop the cache entry. -/
def delete_apply (s : Store) (doc_id : String) : Store :=
  let ids_to_remove :=
    (s.id_map.filter (fun p => pyStartsWith p.2 doc_id)).map Prod.fst
  let s1 : Store :=
    if ids_to_remove.isEmpty then s
    else
      match s.index with
      | some idx =>
        let idx2 : FaissIndex :=
          { idx with entries := idx.entries.filter (fun e => decide (e.1 ∉ ids_to_remove)) }
        saveIndex { s with index := some idx2,
                           id_map := s.id_map.filter (fun p => !(pyStartsWith p.2 doc_id)) }
      | none => s
  { s1 with disk := { s1.disk with docDirs := s1.disk.docDirs.filter (fun p => decide (p.1 ≠ doc_id)) },
            documents := s1.documents.filter (fun p => decide (p.1 ≠ doc_id)) }

/-- Model of `VectorStoreManager.delete_document`: a not-found signal when the
document directory does not exist (the store untouched), success otherwise. -/
def delete_document (s : Store) (doc_id : String) : Bool × Store :=
  if (alGet s.disk.docDirs doc_id).isNone then (false, s)
  else (true, delete_apply s doc_id)

/-- Splitting a character list on a separator, accumulating the current
piece in reverse (structural, so concrete instances evaluate in the kernel). -/
def splitCharAux (sep : Char) : List Char → List Char → List String
  | [], cur => [String.mk cur.reverse]
  | c :: rest, cur =>
    if c = sep then String.mk cur.reverse :: splitCharAux sep rest []
    else splitCharAux sep rest (c :: cur)

/-- Splitting `mapping.split("/")` style (Python list-of-pieces semantics:
`"" -> [""]`, `"a/b" -> ["a", "b"]`, `"a//b" -> ["a", "", "b"]`). -/
def pySplit (s : String) : List String :=
  splitCharAux ('/') s.data []

/-- Python `int(s)` restricted to the digit strings the store writes:
`some` of the decimal value on a non-empty all-digit string, `none`
(a raised `ValueError`) otherwise. -/
def pyToNatAux : List Char → Nat → Option Nat
  | [], acc => some acc
  | c :: rest, acc =>
    if c.isDigit then pyToNatAux rest (acc * 10 + (c.toNat - 48)) else none

/-- Python `int(s)` as used on the chunk-offset half of a mapping. -/
def pyToNat (s : String) : Option Nat :=
  match s.data with
  | [] => none
  | l => pyToNatAux l 0

/-- One search result: the chunk copy annotated with `score` and `doc_id`. -/
structure SearchHit where
  chunk : Chunk
  score : Int
  doc_id : String
deriving DecidableEq

/-- Accumulator of the search loop: `results`, `seen_mappings` (a list, in
insertion order) and the manager (`self`) the loop body reads from. -/
structure SearchAcc where
  results : List SearchHit
  seen : List String
  self : Store
deriving DecidableEq

/-- One iteration of the candidate loop in `VectorStoreManager.search`:
skip padding ids and full result lists, resolve the id map, de-duplicate,
parse the mapping (`split` unpacking and `int()` can raise), guard against
stale mappings, filter, and append.  No branch writes to `self`. -/
def searchStep (k : Nat) (filters : List (String × PyVal))
    (acc : SearchAcc) (cand : Int × Int) : Except Unit SearchAcc :=
  if cand.2 = -1 ∨ acc.results.length ≥ k then .ok acc
  else
    match alGet acc.self.id_map cand.2 with
    | none => .ok acc
    | some m =>
      if m = "" ∨ m ∈ acc.seen then .ok acc
      else
        match pySplit m with
        | [d, istr] =>
          match pyToNat istr with
          | none => .error ()
          | some ci =>
            match alGet acc.self.documents d with
            | none => .ok acc
            | some doc_chunks =>
              if doc_chunks.isEmpty then .ok acc
              else if hlt : ci < doc_chunks.length then
                match matchFilters (doc_chunks.get ⟨ci, hlt⟩) filters with
                | .error u => .error u
                | .ok false => .ok acc
                | .ok true =>
                  .ok { acc with
                        results := acc.results ++
                          [{ chunk := doc_chunks.get ⟨ci, hlt⟩, score := cand.1, doc_id := d }],
                        seen := acc.seen ++ [m] }
              else .ok acc
        | _ => .error ()

/-- The candidate loop of `VectorStoreManager.search`. -/
def searchLoop (k : Nat) (filters : List (String × PyVal)) :
    List (Int × Int) → SearchAcc → Except Unit SearchAcc
  | [], acc => .ok acc
  | c :: cs, acc =>
    match searchStep k filters acc c with
    | .error u => .error u
    | .ok acc2 => searchLoop k filters cs acc2

/-- Model of `VectorStoreManager.search`: empty result on an empty index or cache,
otherwise embed the query, fetch `k * 5` neighbours and run the loop.
The second component is the manager state after the call. -/
def search (env : Env) (s : Store) (query : String) (k : Nat)
    (filters : List (String × PyVal)) :
    Except Unit (List SearchHit) × Store :=
  match s.index with
  | none => (.ok [], s)
  | some idx =>
    if s.documents.isEmpty then (.ok [], s)
    else
      let qv := pyEmbed env query
      let cands := env.ann idx qv (k * 5)
      match searchLoop k filters cands { results := [], seen := [], self := s } with
      | .error u => (.error u, s)
      | .ok acc => (.ok acc.results, acc.self)

/-- Whether a dynamic value is a string. -/
def isStrVal : PyVal → Bool
  | .str _ => true
  | .list _ => false

/-- A well-formed id-map value: exactly one slash followed by a decimal
chunk offset, the shape `add_document` writes. -/
def mappingWf (m : String) : Bool :=
  match pySplit m with
  | [_, istr] => (pyToNat istr).isSome
  | _ => false

/-- A filter entry whose value has the type its key's code path needs:
the order-compared expiration keys and `keyword` take strings. -/
def filterEntryWf : String × PyVal → Bool
  | (k, v) =>
    if k = "keyword" then isStrVal v
    else if k = "expiration_date_gt" then isStrVal v
    else if k = "expiration_date_start" then isStrVal v
    else if k = "expiration_date_end" then isStrVal v
    else true

/-- Chunk metadata whose `expiration_date`, when present, is a string
(the shape the ingestion pipeline writes). -/
def chunkMetaWf (c : Chunk) : Bool :=
  match alGet c.metadata ("expiration_date") with
  | some v => isStrVal v
  | none => true

/-- A fixed environment for concrete executions: the embedding service
always answers, the nearest-neighbour search returns the single row
(distance 0, id 0). -/
def cexEnv : Env :=
  { embedService := fun _ => some [0], sha256 := fun _ => [0],
    rngRandom := fun _ _ => [0], ann := fun _ _ _ => [(0, 0)] }

/-- A one-token chunk with empty metadata. -/
def cexC : Chunk := { text := "t", metadata := [] }

/-- A freshly constructed manager over an empty knowledge base. -/
def cexS0 : Store :=
  { index := none, id_map := [], documents := [],
    disk := { indexArtifact := .missing, idMapArtifact := .missing, docDirs := [] } }

/-- After adding document `A` with two chunks (ids 0, 1). -/
def cexS1 : Store := add_document cexEnv cexS0 ("A") [cexC, cexC]

/-- After also adding document `B` with one chunk (id 2). -/
def cexS2 : Store := add_document cexEnv cexS1 ("B") [cexC]

/-- After deleting document `A`: one id (2) remains, ids 0 and 1 are gone. -/
def cexS3 : Store := (delete_document cexS2 ("A")).2

/-- After adding one document `X` with one chunk to the empty store
(id 0 issued). -/
def cexT1 : Store := add_document cexEnv cexS0 ("X") [cexC]

/-- After deleting `X` again: the id map is empty once more. -/
def cexT2 : Store := (delete_document cexT1 ("X")).2

/-- After adding `Y` with one chunk: the code restarts allocation at 0. -/
def cexT3 : Store := add_document cexEnv cexT2 ("Y") [cexC]

/-- A manager holding one document `A` with one indexed chunk, as built by
a single add: used to exercise `search` and `delete_document` directly. -/
def c3S : Store :=
  { index := some { dim := 1, entries := [(0, [0])] },
    id_map := [(0, ("A/0"))],
    documents := [("A", [{ text := "hello", metadata := [] }])],
    disk := { indexArtifact := .missing, idMapArtifact := .missing,
              docDirs := [("A", some [{ text := "hello", metadata := [] }])] } }

/-- A disk whose id-map artifact holds bytes that are not a valid pickle
(deserializing raises `pickle.UnpicklingError`, not `EOFError`), next to a
readable index artifact and one intact document directory. -/
def c2Disk : Disk :=
  { indexArtifact := .ok { dim := 2, entries := [] },
    idMapArtifact := .corrupt,
    docDirs := [("A", some [cexC])] }

/-- An environment whose embedding service is down for every input. -/
def failEnv1 : Env :=
  { embedService := fun _ => none, sha256 := fun _ => [1, 2],
    rngRandom := fun s n => [(s : Int), (n : Int)], ann := fun _ _ _ => [] }

/-- A second failing environment: same hash and generator algorithms,
different nearest-neighbour behaviour (a distinct process). -/
def failEnv2 : Env :=
  { embedService := fun _ => none, sha256 := fun _ => [1, 2],
    rngRandom := fun s n => [(s : Int), (n : Int)], ann := fun _ _ _ => [(5, 5)] }

theorem alGet_eq_none_iff {κ α : Type} [DecidableEq κ] (m : List (κ × α)) (k : κ) :
    alGet m k = none ↔ ∀ p ∈ m, p.1 ≠ k := by
  simp [alGet, List.find?_eq_none]

theorem alGet_mem {κ α : Type} [DecidableEq κ] {m : List (κ × α)} {k : κ} {v : α}
    (h : alGet m k = some v) : (k, v) ∈ m := by
  unfold alGet at h
  cases hf : m.find? (fun p => decide (p.1 = k)) with
  | none => rw [hf] at h; simp at h
  | some p =>
    rw [hf] at h
    simp only [Option.map_some'] at h
    have hm := List.mem_of_find?_eq_some hf
    have hp := List.find?_some hf
    simp only [decide_eq_true_eq] at hp
    obtain ⟨p1, p2⟩ := p
    simp only at hp h
    have h2 : p2 = v := Option.some.inj h
    rw [← hp, ← h2]
    exact hm

theorem alSet_fresh {κ α : Type} [DecidableEq κ] (m : List (κ × α)) (k : κ) (v : α)
    (h : alGet m k = none) : alSet m k v = m ++ [(k, v)] := by
  unfold alSet
  have hf : m.find? (fun p => decide (p.1 = k)) = none := by
    unfold alGet at h
    exact Option.map_eq_none'.mp h
  simp [hf]

theorem le_foldl_max (xs : List Int) :
    ∀ (a x : Int), x = a ∨ x ∈ xs → x ≤ xs.foldl max a := by
  induction xs with
  | nil =>
    intro a x h
    rcases h with h | h
    · exact le_of_eq h
    · cases h
  | cons y ys ih =>
    intro a x h
    show x ≤ ys.foldl max (max a y)
    rcases h with h | h
    · calc x ≤ max a y := le_trans (le_of_eq h) (le_max_left a y)
        _ ≤ ys.foldl max (max a y) := ih (max a y) (max a y) (Or.inl rfl)
    · rcases List.mem_cons.mp h with h | h
      · calc x ≤ max a y := le_trans (le_of_eq h) (le_max_right a y)
          _ ≤ ys.foldl max (max a y) := ih (max a y) (max a y) (Or.inl rfl)
      · exact ih (max a y) x (Or.inr h)

theorem key_le_maxKey {m : List (Int × String)} {p : Int × String} (hp : p ∈ m) :
    p.1 ≤ maxKey (m.map Prod.fst) := by
  cases m with
  | nil => cases hp
  | cons q rest =>
    show p.1 ≤ (rest.map Prod.fst).foldl max q.1
    apply le_foldl_max
    rcases List.mem_cons.mp hp with h | h
    · left; rw [h]
    · right; exact List.mem_map_of_mem Prod.fst h

theorem foldl_alSet_append {κ α : Type} [DecidableEq κ] :
    ∀ (entries m : List (κ × α)),
      (∀ e ∈ entries, alGet m e.1 = none) →
      entries.Pairwise (fun a b => a.1 ≠ b.1) →
      entries.foldl (fun acc e => alSet acc e.1 e.2) m = m ++ entries := by
  intro entries
  induction entries with
  | nil => intro m _ _; simp
  | cons e es ih =>
    intro m hfresh hpw
    have h1 : alSet m e.1 e.2 = m ++ [(e.1, e.2)] :=
      alSet_fresh m e.1 e.2 (hfresh e (List.mem_cons_self e es))
    have hpw2 := List.pairwise_cons.mp hpw
    have step : (e :: es).foldl (fun acc q => alSet acc q.1 q.2) m
        = es.foldl (fun acc q => alSet acc q.1 q.2) (m ++ [(e.1, e.2)]) := by
      rw [List.foldl_cons, h1]
    rw [step]
    rw [ih (m ++ [(e.1, e.2)]) ?hfr hpw2.2]
    · simp
    case hfr =>
      intro e2 he2
      rw [alGet_eq_none_iff]
      intro p hpmem
      rcases List.mem_append.mp hpmem with hpm | hpm
      · exact (alGet_eq_none_iff m e2.1).mp (hfresh e2 (List.mem_cons_of_mem e he2)) p hpm
      · have : p = (e.1, e.2) := List.mem_singleton.mp hpm
        rw [this]
        exact hpw2.1 e2 he2

theorem add_document_id_map (env : Env) (s : Store) (doc_id : String)
    (c : Chunk) (cs : List Chunk) :
    (add_document env s doc_id (c :: cs)).id_map =
      ((List.range (((c :: cs).map (fun ch => pyEmbed env ch.text)).length)).map
        (fun (i : Nat) => (startIdOf s.id_map + (i : Int), doc_id ++ "/" ++ toString i))).foldl
        (fun m e => alSet m e.1 e.2) s.id_map := rfl

theorem newIds_fresh (s : Store) (i : Nat) :
    alGet s.id_map (startIdOf s.id_map + (i : Int)) = none := by
  rcases hM : s.id_map with _ | ⟨q, rest⟩
  · simp [alGet]
  · rw [alGet_eq_none_iff]
    intro p hp heq
    have hle : p.1 ≤ maxKey ((q :: rest).map Prod.fst) := key_le_maxKey hp
    have hstart : startIdOf (q :: rest) = maxKey ((q :: rest).map Prod.fst) + 1 := rfl
    rw [hstart] at heq
    omega

/-- C1 (amended): a non-empty add appends a contiguous block of new ids
starting at `max(existing ids) + 1`, or at `0` when the id map is empty —
not at the count of existing ids, and with reuse possible after the map
empties. -/
theorem add_document_allocates_from_max (env : Env) (s : Store)
    (doc_id : String) (chunks : List Chunk) (h : chunks ≠ []) :
    (add_document env s doc_id chunks).id_map =
      s.id_map ++ (List.range chunks.length).map
        (fun (i : Nat) => (startIdOf s.id_map + (i : Int), doc_id ++ "/" ++ toString i)) := by
  obtain ⟨c, cs, rfl⟩ := List.exists_cons_of_ne_nil h
  rw [add_document_id_map, List.length_map]
  apply foldl_alSet_append
  · intro e he
    simp only [List.mem_map] at he
    obtain ⟨i, _, rfl⟩ := he
    exact newIds_fresh s i
  · rw [List.pairwise_map]
    refine List.Pairwise.imp ?_ (List.nodup_range _)
    intro a b hab hcontra
    dsimp only at hcontra
    exact absurd (show a = b by omega) hab

/-- C1 counterexample: starting from an empty store, add `A` (2 chunks,
ids 0 and 1), add `B` (1 chunk, id 2), delete `A`.  Now exactly M = 1 id
exists, and the claim says adding `C` with one chunk allocates the block
starting at M, i.e. id 1 — but the code allocates `max(existing) + 1 = 3`.
Moreover (last three conjuncts) adding `X`, deleting it, and adding `Y`
reissues id 0, refuting the never-issued-again half of the claim. -/
theorem add_document_id_block_counterexample :
    cexS3.id_map.length = 1 ∧
    (add_document cexEnv cexS3 ("C") [cexC]).id_map.map Prod.fst = [2, 3] ∧
    ¬ ((add_document cexEnv cexS3 ("C") [cexC]).id_map.map Prod.fst
        = cexS3.id_map.map Prod.fst ++ [(1 : Int)]) ∧
    cexT1.id_map.map Prod.fst = [0] ∧
    cexT2.id_map = [] ∧
    cexT3.id_map.map Prod.fst = [0] := by decide

/-- C1 witness: on the empty store the amended allocation law yields the
single id 0 mapped to `A/0`. -/
theorem add_document_allocates_from_max_witness :
    (add_document cexEnv cexS0 ("A") [cexC]).id_map = [((0 : Int), ("A/0"))] :=
  (add_document_allocates_from_max cexEnv cexS0 ("A") [cexC] (by decide)).trans
    (by decide)

/-- C2: evaluating `_load` at the failing input — a readable index artifact
beside an id-map artifact whose bytes raise a non-`EOFError` on
deserialization (e.g. `pickle.UnpicklingError`), with an intact document
directory on disk — propagates the exception out of the constructor instead
of discarding both artifacts and loading the documents. -/
theorem load_corrupt_id_map_raises : pyLoad c2Disk = .error () := rfl

/-- C4: a chunk whose metadata has no `expiration_date` is excluded by
`expiration_date_gt` for every cutoff value, yet included by
`expiration_date_start` together with `expiration_date_end` for every pair
of bound values. -/
theorem missing_expiration_filter_asymmetry (c : Chunk) (v v1 v2 : PyVal)
    (h : alGet c.metadata ("expiration_date") = none) :
    matchFilters c [(("expiration_date_gt"), v)] = .ok false ∧
    matchFilters c
      [(("expiration_date_start"), v1), (("expiration_date_end"), v2)] = .ok true := by
  constructor <;> simp [matchFilters, matchLoop, filterStep, h]

/-- C4 witness: instantiated at a concrete chunk without expiration date and
the spec's example dates. -/
theorem missing_expiration_filter_asymmetry_witness :
    matchFilters cexC [(("expiration_date_gt"), PyVal.str ("2024-01-01"))] = .ok false ∧
    matchFilters cexC
      [(("expiration_date_start"), PyVal.str ("2024-01-01")),
       (("expiration_date_end"), PyVal.str ("2024-12-31"))] = .ok true :=
  missing_expiration_filter_asymmetry cexC (PyVal.str ("2024-01-01"))
    (PyVal.str ("2024-01-01")) (PyVal.str ("2024-12-31")) rfl

/-- C7: when the embedding service fails, `_embed`'s output is a function of
the input text and the fixed hash and generator algorithms alone — two
failing calls, in the same or different processes, agree. -/
theorem embed_fallback_deterministic (e1 e2 : Env) (text : String)
    (h1 : e1.embedService text = none) (h2 : e2.embedService text = none)
    (hsha : e1.sha256 = e2.sha256) (hrng : e1.rngRandom = e2.rngRandom) :
    pyEmbed e1 text = pyEmbed e2 text := by
  unfold pyEmbed
  rw [h1, h2, hsha, hrng]

/-- C7 witness: two environments with the service down and different search
behaviour produce the same fallback vector for the same text. -/
theorem embed_fallback_deterministic_witness :
    pyEmbed failEnv1 ("x") = pyEmbed failEnv2 ("x") :=
  embed_fallback_deterministic failEnv1 failEnv2 ("x") rfl rfl rfl rfl

/-- C8: `add_document` with an empty chunk list returns before touching the
ANN index, the id map or the in-memory cache (only the document directory on
disk is created). -/
theorem add_document_empty_noop (env : Env) (s : Store) (doc_id : String) :
    (add_document env s doc_id []).index = s.index ∧
    (add_document env s doc_id []).id_map = s.id_map ∧
    (add_document env s doc_id []).documents = s.documents :=
  ⟨rfl, rfl, rfl⟩

theorem alGet_append_left_none {κ α : Type} [DecidableEq κ]
    {l1 : List (κ × α)} (l2 : List (κ × α)) {k : κ}
    (h : alGet l1 k = none) : alGet (l1 ++ l2) k = alGet l2 k := by
  induction l1 with
  | nil => simp
  | cons q rest ih =>
    have hq : ¬ (q.1 = k) := (alGet_eq_none_iff _ _).mp h q (List.mem_cons_self _ _)
    have hrest : alGet rest k = none := by
      rw [alGet_eq_none_iff] at h ⊢
      intro p hp
      exact h p (List.mem_cons_of_mem q hp)
    calc alGet ((q :: rest) ++ l2) k = alGet (rest ++ l2) k := by
          unfold alGet
          rw [List.cons_append, List.find?_cons_of_neg _ (by simpa using hq)]
      _ = alGet l2 k := ih hrest

theorem pyLoad_documents (ia : Artifact FaissIndex)
    (ma : Artifact (List (Int × String)))
    (dd : List (String × Option (List Chunk)))
    (hia : ia ≠ .corrupt) (hma : ma ≠ .corrupt) :
    ∃ t, pyLoad ⟨ia, ma, dd⟩ = .ok t ∧
      t.documents = loadDocs ⟨ia, ma, dd⟩ := by
  cases ia <;> cases ma <;>
    first
      | exact absurd rfl hia
      | exact absurd rfl hma
      | exact ⟨_, rfl, rfl⟩

theorem filterMapDocs_keys (dd : List (String × Option (List Chunk)))
    (k : String) (h : alGet dd k = none) :
    alGet (dd.filterMap (fun p => p.2.map (fun cs => (p.1, cs)))) k = none := by
  rw [alGet_eq_none_iff] at h ⊢
  intro p hp
  obtain ⟨q, hq, hfq⟩ := List.mem_filterMap.mp hp
  cases hq2 : q.2 with
  | none => rw [hq2] at hfq; cases hfq
  | some cs =>
    rw [hq2] at hfq
    simp only [Option.map_some'] at hfq
    have hpq : (q.1, cs) = p := Option.some.inj hfq
    rw [← hpq]
    exact h q hq

/-- C10: `add_document` with an empty chunk list leaves the document out of
the in-memory cache, yet writes an (empty) chunks file, so a reload from
disk inserts the doc_id mapped to the empty chunk sequence: the cache before
and after the persist-reload round trip differ. -/
theorem empty_add_reload_divergence (env : Env) (s : Store) (doc_id : String)
    (hdoc : alGet s.documents doc_id = none)
    (hdir : alGet s.disk.docDirs doc_id = none)
    (hia : s.disk.indexArtifact ≠ .corrupt)
    (hma : s.disk.idMapArtifact ≠ .corrupt) :
    alGet (add_document env s doc_id []).documents doc_id = none ∧
    ∃ t, pyLoad (add_document env s doc_id []).disk = .ok t ∧
      alGet t.documents doc_id = some [] ∧
      (add_document env s doc_id []).documents ≠ t.documents := by
  have hdocs : (add_document env s doc_id []).documents = s.documents := rfl
  have hdisk : (add_document env s doc_id []).disk =
      ⟨s.disk.indexArtifact, s.disk.idMapArtifact,
       s.disk.docDirs ++ [(doc_id, some [])]⟩ := by
    show ({ s.disk with docDirs := alSet s.disk.docDirs doc_id (some []) } : Disk) = _
    rw [alSet_fresh _ _ _ hdir]
  obtain ⟨t, ht, htdocs⟩ :=
    pyLoad_documents s.disk.indexArtifact s.disk.idMapArtifact
      (s.disk.docDirs ++ [(doc_id, some [])]) hia hma
  have ht2 : pyLoad (add_document env s doc_id []).disk = .ok t := by
    rw [hdisk]; exact ht
  have hsome : alGet t.documents doc_id = some [] := by
    rw [htdocs]
    show alGet ((s.disk.docDirs ++ [(doc_id, some [])]).filterMap
      (fun (p : String × Option (List Chunk)) =>
        p.2.map (fun cs => (p.1, cs)))) doc_id = some []
    rw [List.filterMap_append]
    rw [alGet_append_left_none _ (filterMapDocs_keys _ _ hdir)]
    simp [alGet]
  have hne : (add_document env s doc_id []).documents ≠ t.documents := by
    rw [hdocs]
    intro heq
    rw [← heq, hdoc] at hsome
    exact Option.noConfusion hsome
  exact ⟨by rw [hdocs]; exact hdoc, t, ht2, hsome, hne⟩

/-- C10 witness: instantiated on the empty store with document `D`. -/
theorem empty_add_reload_divergence_witness :
    alGet (add_document cexEnv cexS0 ("D") []).documents ("D") = none ∧
    ∃ t, pyLoad (add_document cexEnv cexS0 ("D") []).disk = .ok t ∧
      alGet t.documents ("D") = some [] ∧
      (add_document cexEnv cexS0 ("D") []).documents ≠ t.documents :=
  empty_add_reload_divergence cexEnv cexS0 ("D") rfl rfl
    (by decide) (by decide)

theorem pyLe_ok {a b : PyVal} (ha : isStrVal a = true) (hb : isStrVal b = true) :
    ∃ c, pyLe a b = .ok c := by
  cases a <;> cases b <;> first | exact ⟨_, rfl⟩ | simp [isStrVal] at ha hb

theorem pyLt_ok {a b : PyVal} (ha : isStrVal a = true) (hb : isStrVal b = true) :
    ∃ c, pyLt a b = .ok c := by
  cases a <;> cases b <;> first | exact ⟨_, rfl⟩ | simp [isStrVal] at ha hb

theorem pyGt_ok {a b : PyVal} (ha : isStrVal a = true) (hb : isStrVal b = true) :
    ∃ c, pyGt a b = .ok c := by
  cases a <;> cases b <;> first | exact ⟨_, rfl⟩ | simp [isStrVal] at ha hb

theorem filterStep_ok (meta : List (String × PyVal)) (text : String)
    (key : String) (value : PyVal)
    (hwfp : filterEntryWf (key, value) = true)
    (hmeta : ∀ v, alGet meta ("expiration_date") = some v → isStrVal v = true) :
    ∃ c, filterStep meta text key value = .ok c := by
  unfold filterStep
  by_cases h1 : key = "expiration_date_gt"
  · rw [if_pos h1]
    rw [h1] at hwfp
    simp [filterEntryWf] at hwfp
    cases hexp : alGet meta ("expiration_date") with
    | none => exact ⟨false, rfl⟩
    | some e =>
      dsimp only
      by_cases ht : pyTruthy (some e) = true
      · obtain ⟨c, hc⟩ := pyLe_ok (hmeta e hexp) hwfp
        rw [if_pos ht, hc]
        cases c
        · exact ⟨true, rfl⟩
        · exact ⟨false, rfl⟩
      · rw [if_neg ht]
        exact ⟨false, rfl⟩
  · rw [if_neg h1]
    by_cases h2 : key = "expiration_date_start"
    · rw [if_pos h2]
      rw [h2] at hwfp
      simp [filterEntryWf] at hwfp
      cases hexp : alGet meta ("expiration_date") with
      | none => exact ⟨true, rfl⟩
      | some e =>
        dsimp only
        by_cases ht : pyTruthy (some e) = true
        · obtain ⟨c, hc⟩ := pyLt_ok (hmeta e hexp) hwfp
          rw [if_pos ht, hc]
          cases c
          · exact ⟨true, rfl⟩
          · exact ⟨false, rfl⟩
        · rw [if_neg ht]
          exact ⟨true, rfl⟩
    · rw [if_neg h2]
      by_cases h3 : key = "expiration_date_end"
      · rw [if_pos h3]
        rw [h3] at hwfp
        simp [filterEntryWf] at hwfp
        cases hexp : alGet meta ("expiration_date") with
        | none => exact ⟨true, rfl⟩
        | some e =>
          dsimp only
          by_cases ht : pyTruthy (some e) = true
          · obtain ⟨c, hc⟩ := pyGt_ok (hmeta e hexp) hwfp
            rw [if_pos ht, hc]
            cases c
            · exact ⟨true, rfl⟩
            · exact ⟨false, rfl⟩
          · rw [if_neg ht]
            exact ⟨true, rfl⟩
      · rw [if_neg h3]
        by_cases h4 : key = "author"
        · rw [if_pos h4]
          cases alGet meta ("author") with
          | none => exact ⟨false, rfl⟩
          | some a =>
            dsimp only
            by_cases ha : a = value
            · rw [if_pos ha]; exact ⟨true, rfl⟩
            · rw [if_neg ha]; exact ⟨false, rfl⟩
        · rw [if_neg h4]
          by_cases h5 : key = "tag"
          · rw [if_pos h5]
            cases value with
            | str v =>
              dsimp only
              by_cases hin : pyInVal v ((alGet meta ("ai_tags")).getD (.list [])) = true
              · rw [if_pos hin]; exact ⟨true, rfl⟩
              · rw [if_neg hin]; exact ⟨false, rfl⟩
            | list l =>
              dsimp only
              by_cases hin : l.any (fun v => pyInVal v ((alGet meta ("ai_tags")).getD (.list []))) = true
              · rw [if_pos hin]; exact ⟨true, rfl⟩
              · rw [if_neg hin]; exact ⟨false, rfl⟩
          · rw [if_neg h5]
            by_cases h6 : key = "keyword"
            · rw [if_pos h6]
              rw [h6] at hwfp
              simp [filterEntryWf] at hwfp
              cases value with
              | str v =>
                dsimp only
                by_cases hin : pyInStr v.toLower text.toLower = true
                · rw [if_pos hin]; exact ⟨true, rfl⟩
                · rw [if_neg hin]; exact ⟨false, rfl⟩
              | list l => simp [isStrVal] at hwfp
            · rw [if_neg h6]
              cases alGet meta key with
              | none => exact ⟨false, rfl⟩
              | some v =>
                dsimp only
                by_cases hv : v = value
                · rw [if_pos hv]; exact ⟨true, rfl⟩
                · rw [if_neg hv]; exact ⟨false, rfl⟩

theorem matchLoop_ok (meta : List (String × PyVal)) (text : String) :
    ∀ fl : List (String × PyVal), (∀ p ∈ fl, filterEntryWf p = true) →
      (∀ v, alGet meta ("expiration_date") = some v → isStrVal v = true) →
      ∃ b, matchLoop meta text fl = .ok b := by
  intro fl
  induction fl with
  | nil => intro _ _; exact ⟨true, rfl⟩
  | cons p rest ih =>
    intro hwf hmeta
    obtain ⟨key, value⟩ := p
    obtain ⟨b, hb⟩ := ih (fun q hq => hwf q (List.mem_cons_of_mem _ hq)) hmeta
    obtain ⟨c, hc⟩ :=
      filterStep_ok meta text key value (hwf (key, value) (List.mem_cons_self _ _)) hmeta
    unfold matchLoop
    rw [hc]
    cases c
    · exact ⟨false, rfl⟩
    · exact ⟨b, hb⟩

theorem matchFilters_ok {c : Chunk} {filters : List (String × PyVal)}
    (hf : ∀ p ∈ filters, filterEntryWf p = true)
    (hc : chunkMetaWf c = true) :
    ∃ b, matchFilters c filters = .ok b := by
  unfold matchFilters
  split
  · exact ⟨true, rfl⟩
  · refine matchLoop_ok _ _ filters hf ?_
    intro v hv
    unfold chunkMetaWf at hc
    rw [hv] at hc
    exact hc

theorem searchStep_inv {k : Nat} {filters : List (String × PyVal)}
    {acc : SearchAcc} {cand : Int × Int} {acc2 : SearchAcc}
    (h : searchStep k filters acc cand = .ok acc2) :
    acc2.self = acc.self ∧
    (acc.results.length ≤ k → acc2.results.length ≤ k) ∧
    ((∀ hit ∈ acc.results, (alGet acc.self.documents hit.doc_id).isSome = true) →
      ∀ hit ∈ acc2.results, (alGet acc.self.documents hit.doc_id).isSome = true) := by
  unfold searchStep at h
  repeat' split at h
  all_goals try exact Except.noConfusion h
  all_goals try (injection h with h; subst h; exact ⟨rfl, fun x => x, fun x => x⟩)
  · injection h with h
    subst h
    refine ⟨rfl, ?_, ?_⟩
    · intro hl
      simp only [List.length_append, List.length_singleton]
      omega
    · intro hmem hit hhit
      rcases List.mem_append.mp hhit with hold | hnew
      · exact hmem hit hold
      · have heq2 : hit = _ := List.mem_singleton.mp hnew
        subst heq2
        simp_all

theorem searchLoop_inv {k : Nat} {filters : List (String × PyVal)} :
    ∀ (cands : List (Int × Int)) (acc acc2 : SearchAcc),
      searchLoop k filters cands acc = .ok acc2 →
      acc2.self = acc.self ∧
      (acc.results.length ≤ k → acc2.results.length ≤ k) ∧
      ((∀ hit ∈ acc.results, (alGet acc.self.documents hit.doc_id).isSome = true) →
        ∀ hit ∈ acc2.results, (alGet acc.self.documents hit.doc_id).isSome = true) := by
  intro cands
  induction cands with
  | nil =>
    intro acc acc2 h
    unfold searchLoop at h
    injection h with h
    subst h
    exact ⟨rfl, fun x => x, fun x => x⟩
  | cons c cs ih =>
    intro acc acc2 h
    unfold searchLoop at h
    cases hstep : searchStep k filters acc c with
    | error u => rw [hstep] at h; exact Except.noConfusion h
    | ok mid =>
      rw [hstep] at h
      obtain ⟨hself1, hlen1, hmem1⟩ := searchStep_inv hstep
      obtain ⟨hself2, hlen2, hmem2⟩ := ih mid acc2 h
      rw [hself1] at hself2 hmem2
      exact ⟨hself2, fun hl => hlen2 (hlen1 hl), fun hm => hmem2 (hmem1 hm)⟩

theorem searchStep_ok {k : Nat} {filters : List (String × PyVal)}
    {acc : SearchAcc} {cand : Int × Int}
    (hmap : ∀ p ∈ acc.self.id_map, mappingWf p.2 = true)
    (hf : ∀ p ∈ filters, filterEntryWf p = true)
    (hmeta : ∀ q ∈ acc.self.documents, ∀ ch ∈ q.2, chunkMetaWf ch = true) :
    ∃ acc2, searchStep k filters acc cand = .ok acc2 := by
  unfold searchStep
  split
  · exact ⟨acc, rfl⟩
  · cases hget : alGet acc.self.id_map cand.2 with
    | none => simp only [hget]; exact ⟨acc, rfl⟩
    | some m =>
      simp only [hget]
      split
      · exact ⟨acc, rfl⟩
      · have hmwf : mappingWf m = true := hmap (cand.2, m) (alGet_mem hget)
        unfold mappingWf at hmwf
        cases hsplit : pySplit m with
        | nil => rw [hsplit] at hmwf; exact absurd hmwf (by simp)
        | cons a rest =>
          cases rest with
          | nil => rw [hsplit] at hmwf; exact absurd hmwf (by simp)
          | cons b rest2 =>
            cases rest2 with
            | cons c2 rest3 => rw [hsplit] at hmwf; exact absurd hmwf (by simp)
            | nil =>
              rw [hsplit] at hmwf
              simp only at hmwf
              simp only [hsplit]
              cases hnat : pyToNat b with
              | none => rw [hnat] at hmwf; exact absurd hmwf (by simp)
              | some ci =>
                simp only [hnat]
                cases hdocs : alGet acc.self.documents a with
                | none => simp only [hdocs]; exact ⟨acc, rfl⟩
                | some doc_chunks =>
                  simp only [hdocs]
                  split
                  · exact ⟨acc, rfl⟩
                  · split
                    · rename_i hlt
                      have hchunk : chunkMetaWf (doc_chunks.get ⟨ci, hlt⟩) = true :=
                        hmeta (a, doc_chunks) (alGet_mem hdocs)
                          (doc_chunks.get ⟨ci, hlt⟩) (doc_chunks.get_mem _ _)
                      obtain ⟨bb, hbb⟩ := matchFilters_ok hf hchunk
                      rw [hbb]
                      cases bb
                      · exact ⟨acc, rfl⟩
                      · exact ⟨_, rfl⟩
                    · exact ⟨acc, rfl⟩

theorem searchLoop_ok {k : Nat} {filters : List (String × PyVal)} :
    ∀ (cands : List (Int × Int)) (acc : SearchAcc),
      (∀ p ∈ acc.self.id_map, mappingWf p.2 = true) →
      (∀ p ∈ filters, filterEntryWf p = true) →
      (∀ q ∈ acc.self.documents, ∀ ch ∈ q.2, chunkMetaWf ch = true) →
      ∃ acc2, searchLoop k filters cands acc = .ok acc2 := by
  intro cands
  induction cands with
  | nil => intro acc _ _ _; exact ⟨acc, rfl⟩
  | cons c cs ih =>
    intro acc hmap hf hmeta
    obtain ⟨mid, hmid⟩ := searchStep_ok hmap hf hmeta
    have hself := (searchStep_inv hmid).1
    obtain ⟨acc2, hacc2⟩ := ih mid (by rw [hself]; exact hmap) hf (by rw [hself]; exact hmeta)
    refine ⟨acc2, ?_⟩
    unfold searchLoop
    rw [hmid]
    exact hacc2

theorem search_ok_spec (env : Env) (s : Store) (query : String) (k : Nat)
    (filters : List (String × PyVal)) (r : List SearchHit)
    (h : (search env s query k filters).1 = .ok r) :
    r.length ≤ k ∧ ∀ hit ∈ r, (alGet s.documents hit.doc_id).isSome = true := by
  unfold search at h
  split at h
  · injection h with h
    subst h
    exact ⟨Nat.zero_le k, fun hit hh => absurd hh (List.not_mem_nil hit)⟩
  · split at h
    · injection h with h
      subst h
      exact ⟨Nat.zero_le k, fun hit hh => absurd hh (List.not_mem_nil hit)⟩
    · dsimp only at h
      split at h
      · exact Except.noConfusion h
      · injection h with h
        subst h
        rename_i acc hloop
        obtain ⟨hself, hlen, hmem⟩ := searchLoop_inv _ _ _ hloop
        refine ⟨hlen (Nat.zero_le k), ?_⟩
        exact hmem (fun hit2 hh2 => absurd hh2 (List.not_mem_nil hit2))

theorem search_preserves_state (env : Env) (s : Store) (query : String)
    (k : Nat) (filters : List (String × PyVal)) :
    (search env s query k filters).2 = s := by
  unfold search
  split
  · rfl
  · split
    · rfl
    · dsimp only
      split
      · rfl
      · rename_i acc hloop
        exact (searchLoop_inv _ _ _ hloop).1

/-- C6: `search` returns at most `k` results, and every returned item's
`doc_id` is a key of the in-memory document cache at the time of the call. -/
theorem search_bounded_and_cached (env : Env) (s : Store) (query : String)
    (k : Nat) (filters : List (String × PyVal)) (r : List SearchHit)
    (h : (search env s query k filters).1 = .ok r) :
    r.length ≤ k ∧ ∀ hit ∈ r, (alGet s.documents hit.doc_id).isSome = true :=
  search_ok_spec env s query k filters r h

/-- C6 witness: on the empty store a search returns the empty list, which has
at most 5 elements. -/
theorem search_bounded_and_cached_witness :
    (search cexEnv cexS0 ("q") 5 []).1 = .ok ([] : List SearchHit) ∧
    ([] : List SearchHit).length ≤ 5 :=
  ⟨rfl, (search_bounded_and_cached cexEnv cexS0 ("q") 5 [] [] rfl).1⟩

/-- C9: `search` leaves the manager's state — ANN index, id map, document
cache and disk — exactly as it found it. -/
theorem search_leaves_state_unchanged (env : Env) (s : Store) (query : String)
    (k : Nat) (filters : List (String × PyVal)) :
    (search env s query k filters).2 = s :=
  search_preserves_state env s query k filters

/-- C3 counterexample: on a store holding one indexed chunk, a search whose
filters map `keyword` to a list of strings raises (`value.lower()` is an
`AttributeError` on a Python list) instead of returning a result list. -/
theorem search_keyword_list_raises :
    search cexEnv c3S ("q") 5 [(("keyword"), PyVal.list ["x"])]
      = (.error (), c3S) := by rfl

/-- C3 (amended): `search` returns a (possibly empty) result list and leaves
the state unchanged provided all three of: the id-map values are well-formed
`doc_id/offset` strings, every `keyword` and expiration-comparison filter
value is a string, and every cached chunk's `expiration_date` metadata
value (when present) is a string — conditions every store the program
itself builds satisfies.  Without them `search` can raise: a list under
`keyword` is an `AttributeError`, and a list-valued `expiration_date`
order-compared against a string filter value is a `TypeError`. -/
theorem search_total_on_wellformed (env : Env) (s : Store) (query : String)
    (k : Nat) (filters : List (String × PyVal))
    (hmap : ∀ p ∈ s.id_map, mappingWf p.2 = true)
    (hf : ∀ p ∈ filters, filterEntryWf p = true)
    (hmeta : ∀ q ∈ s.documents, ∀ ch ∈ q.2, chunkMetaWf ch = true) :
    ∃ r, search env s query k filters = (.ok r, s) := by
  unfold search
  split
  · exact ⟨[], rfl⟩
  · split
    · exact ⟨[], rfl⟩
    · dsimp only
      obtain ⟨acc2, h2⟩ :=
        @searchLoop_ok k filters (env.ann _ (pyEmbed env query) (k * 5))
          { results := [], seen := [], self := s } hmap hf hmeta
      rw [h2]
      refine ⟨acc2.results, ?_⟩
      dsimp only
      have hs : acc2.self = s := (searchLoop_inv _ _ _ h2).1
      rw [hs]

/-- C3 witness: on the one-document store, a search with well-formed filters
returns a result list and preserves the state. -/
theorem search_total_on_wellformed_witness :
    ∃ r, search cexEnv c3S ("q") 5 [(("author"), PyVal.str ("T"))] = (.ok r, c3S) :=
  search_total_on_wellformed cexEnv c3S ("q") 5 [(("author"), PyVal.str ("T"))]
    (by decide) (by decide) (by decide)

theorem delete_apply_documents (s : Store) (doc_id : String) :
    alGet (delete_apply s doc_id).documents doc_id = none := by
  rw [alGet_eq_none_iff]
  intro p hp
  unfold delete_apply at hp
  dsimp only at hp
  have h2 := (List.mem_filter.mp hp).2
  simpa using h2

theorem delete_apply_id_map (s : Store) (doc_id : String)
    (hinv : s.index = none → s.id_map = []) :
    ∀ p ∈ (delete_apply s doc_id).id_map, pyStartsWith p.2 doc_id = false := by
  intro p hp
  unfold delete_apply at hp
  dsimp only at hp
  by_cases hids :
      ((s.id_map.filter (fun q => pyStartsWith q.2 doc_id)).map Prod.fst).isEmpty = true
  · rw [if_pos hids] at hp
    have hfil : s.id_map.filter (fun q => pyStartsWith q.2 doc_id) = [] := by
      have hmap := List.isEmpty_iff.mp hids
      exact List.map_eq_nil_iff.mp hmap
    have h2 := List.filter_eq_nil_iff.mp hfil p hp
    simpa using h2
  · rw [if_neg hids] at hp
    cases hidx : s.index with
    | none =>
      exfalso
      have hm := hinv hidx
      rw [hm] at hids
      simp at hids
    | some idx =>
      rw [hidx] at hp
      simp only [saveIndex] at hp
      have h2 := (List.mem_filter.mp hp).2
      simpa using h2

/-- C5: deleting an unknown document returns the not-found signal `False`
and leaves the store unchanged; when the call returns `True`, afterwards no
id-map entry references the document (no mapping string even starts with its
doc_id), the doc_id is absent from the in-memory cache, and no subsequent
search returns a chunk belonging to it. -/
theorem delete_document_spec (s : Store) (doc_id : String)
    (hinv : s.index = none → s.id_map = []) :
    ((alGet s.disk.docDirs doc_id).isNone = true →
      delete_document s doc_id = (false, s)) ∧
    (∀ s2, delete_document s doc_id = (true, s2) →
      (∀ p ∈ s2.id_map, pyStartsWith p.2 doc_id = false) ∧
      alGet s2.documents doc_id = none ∧
      (∀ env query k filters r,
        (search env s2 query k filters).1 = .ok r →
        ∀ hit ∈ r, hit.doc_id ≠ doc_id)) := by
  constructor
  · intro hnone
    unfold delete_document
    rw [if_pos hnone]
  · intro s2 hdel
    unfold delete_document at hdel
    split at hdel
    · exact absurd (congrArg Prod.fst hdel) (by simp)
    · injection hdel with hb hs2
      subst hs2
      refine ⟨delete_apply_id_map s doc_id hinv, delete_apply_documents s doc_id, ?_⟩
      intro env query k filters r hsr hit hhit heq
      have hmem := (search_ok_spec env _ query k filters r hsr).2 hit hhit
      rw [heq, delete_apply_documents s doc_id] at hmem
      exact Bool.noConfusion hmem

/-- C5 witness: on the one-document store, deleting `A` succeeds and `A` is
gone from the cache afterwards. -/
theorem delete_document_spec_witness :
    (delete_document c3S ("A")).1 = true ∧
    alGet ((delete_document c3S ("A")).2).documents ("A") = none :=
  ⟨by decide,
   ((delete_document_spec c3S ("A") (by decide)).2
     (delete_document c3S ("A")).2 (by decide)).2.1⟩
